import Mathlib

/-!
Verification of the Czech citizenship exam PDF-extraction pipeline
(`pdf_to_json.py` and `validate_images.py`).

Strings are modelled as lists of characters (`Str`).  Python's Unicode
character classes are modelled on the alphabet the program actually works
with: ASCII plus the Czech letters occurring in the source regexes and
keyword tables.
-/

namespace CCE

abbrev Str := List Char

def str (s : String) : Str := s.toList

/-- Whitespace characters, the model of Python's `\s` and `str.strip`. -/
def isPySpace (c : Char) : Bool :=
  c = ' ' || c = '\t' || c = '\n' || c = '\x0d' || c = '\x0b' || c = '\x0c'

def czechUpper : List Char := ['Á','Č','Ď','É','Ě','Í','Ň','Ó','Ř','Š','Ť','Ú','Ů','Ý','Ž']

def czechLower : List Char := ['á','č','ď','é','ě','í','ň','ó','ř','š','ť','ú','ů','ý','ž']

def pyIsUpperChar (c : Char) : Bool := c.isUpper || czechUpper.contains c

def pyIsLowerChar (c : Char) : Bool := c.isLower || czechLower.contains c

def pyIsAlphaChar (c : Char) : Bool := pyIsUpperChar c || pyIsLowerChar c

/-- Python `str.isupper`: at least one cased character and no lowercase
cased character. -/
def pyIsUpperStr (l : Str) : Bool :=
  l.any pyIsAlphaChar && l.all (fun c => !pyIsAlphaChar c || pyIsUpperChar c)

def pyLowerChar (c : Char) : Char :=
  match c with
  | 'Á' => 'á' | 'Č' => 'č' | 'Ď' => 'ď' | 'É' => 'é' | 'Ě' => 'ě'
  | 'Í' => 'í' | 'Ň' => 'ň' | 'Ó' => 'ó' | 'Ř' => 'ř' | 'Š' => 'š'
  | 'Ť' => 'ť' | 'Ú' => 'ú' | 'Ů' => 'ů' | 'Ý' => 'ý' | 'Ž' => 'ž'
  | _ => c.toLower

/-- Python `str.lower` on the modelled alphabet. -/
def pyLower (l : Str) : Str := l.map pyLowerChar

/-- Python `str.strip`. -/
def pyStrip (l : Str) : Str :=
  ((l.dropWhile isPySpace).reverse.dropWhile isPySpace).reverse

/-- One pass of `re.sub(r'\s+', ' ', text)`: `prevWS` records whether the
previous character belonged to a whitespace run already replaced. -/
def subWSAux (prevWS : Bool) : Str → Str
  | [] => []
  | c :: cs =>
    if isPySpace c then
      if prevWS then subWSAux true cs else ' ' :: subWSAux true cs
    else c :: subWSAux false cs

def subWS (l : Str) : Str := subWSAux false l

/-- `clean_text` (`pdf_to_json.py` lines 111-114): collapse every
whitespace run to a single space, then strip. -/
def clean_text (l : Str) : Str := pyStrip (subWS l)

/-- Python's `pat in s` substring test. -/
def containsSub (pat : Str) : Str → Bool
  | [] => pat.isEmpty
  | c :: cs => pat.isPrefixOf (c :: cs) || containsSub pat cs

/-- Python `int()` on a digit string. -/
def digitsToNat (ds : Str) : Nat := ds.foldl (fun a c => a * 10 + (c.toNat - 48)) 0

/-- `re.findall(r'(\d+)([A-D])', line)`: maximal digit runs immediately
followed by a letter A-D.  A digit run not followed by such a letter can
never contribute to a later match starting inside the run (the character
after the run is fixed and is not A-D), so skipping the whole run is
equivalent to the regex engine's advance-by-one retry. -/
def findAnswerTokens : Option Nat → Str → List (Nat × Char)
  | _, [] => []
  | none, c :: cs =>
    if c.isDigit then findAnswerTokens (some (c.toNat - 48)) cs
    else findAnswerTokens none cs
  | some n, c :: cs =>
    if c.isDigit then findAnswerTokens (some (n * 10 + (c.toNat - 48))) cs
    else if c = 'A' || c = 'B' || c = 'C' || c = 'D' then
      (n, c) :: findAnswerTokens none cs
    else findAnswerTokens none cs

/-- `parse_answers_line` (lines 102-108), as the ordered list of dict
insertions; the dict lookup is `lookupAns` (last insertion wins). -/
def parse_answers_line (line : Str) : List (Nat × Char) := findAnswerTokens none line

/-- Lookup in the insertion list of a Python dict: the last entry for a
key wins. -/
def lookupAns (m : List (Nat × Char)) (n : Nat) : Option Char :=
  match m with
  | [] => none
  | (k, c) :: tl =>
    match lookupAns tl n with
    | some c2 => some c2
    | none => if k = n then some c else none

/-- Python dataclass `Option` (renamed: `Option` is taken in Lean). -/
structure Opt where
  label : Str
  text : Str
  image : Option Str := none
  deriving DecidableEq, Repr

/-- Python dataclass `Question`. -/
structure Question where
  id : Nat
  text : Str
  options : List Opt := []
  correct : Str := []
  image : Option Str := none
  date : Option Str := none
  page : Nat := 0
  deriving DecidableEq, Repr

/-- Python dataclass `Section`. -/
structure Section where
  id : Nat
  name : Str
  questions : List Question := []
  deriving DecidableEq, Repr

/-- Python dataclass `QuizData`. -/
structure QuizData where
  source_file : Str
  sections : List Section := []
  deriving DecidableEq, Repr

/-- Lines 195-197 and 283-285: apply pending answer letters by id. -/
def applyAnswers (ans : List (Nat × Char)) (qs : List Question) : List Question :=
  qs.map fun q =>
    match lookupAns ans q.id with
    | some c => { q with correct := [c] }
    | none => q

/-- `re.match(r'^\d+$', line)`. -/
def isPageNum (l : Str) : Bool := !l.isEmpty && l.all Char.isDigit

def sectionHeadClass (c : Char) : Bool := c.isUpper || czechUpper.contains c

def sectionTailClass (c : Char) : Bool :=
  sectionHeadClass c || isPySpace c || c = ',' || c.isDigit || c = '.'

/-- The section-header regex of line 183,
`^(\d+)\.\s+([A-ZÁČĎÉĚÍŇÓŘŠŤÚŮÝŽ][A-ZÁČĎÉĚÍŇÓŘŠŤÚŮÝŽ\s,0-9.]+)$`,
returning group 1 as a number and group 2. -/
def sectionMatch (l : Str) : Option (Nat × Str) :=
  let ds := l.takeWhile Char.isDigit
  let rest := l.dropWhile Char.isDigit
  if ds.isEmpty then none
  else
    match rest with
    | '.' :: r =>
      if (r.takeWhile isPySpace).isEmpty then none
      else
        match r.dropWhile isPySpace with
        | c :: cs =>
          if sectionHeadClass c && !cs.isEmpty && cs.all sectionTailClass then
            some (digitsToNat ds, c :: cs)
          else none
        | [] => none
    | _ => none

/-- Line 186: `all(c.isupper() or not c.isalpha() for c in section_text)`. -/
def isSectionTitle (t : Str) : Bool := t.all fun c => pyIsUpperChar c || !pyIsAlphaChar c

/-- Lines 183-187: a line recognised as a section header, with the parsed
id and the stripped name (line 201). -/
def sectionHeaderOf (l : Str) : Option (Nat × Str) :=
  match sectionMatch l with
  | some (sid, title) => if isSectionTitle title then some (sid, pyStrip title) else none
  | none => none

/-- Line 209. -/
def isAnswersLine (l : Str) : Bool :=
  containsSub (str "SPRÁVNÉ ŘEŠENÍ:") l || containsSub (str "SPRÁVNÉ ŘEŠENÍ") l

/-- `re.match(r'^(\d+)\.\s*(.*)', line)` (line 220). -/
def questionMatch (l : Str) : Option (Nat × Str) :=
  let ds := l.takeWhile Char.isDigit
  let rest := l.dropWhile Char.isDigit
  if ds.isEmpty then none
  else
    match rest with
    | '.' :: r => some (digitsToNat ds, r.dropWhile isPySpace)
    | _ => none

/-- `re.match(r'^([A-D])\)\s*(.*)', line)` (line 249). -/
def optionMatch (l : Str) : Option (Char × Str) :=
  match l with
  | c :: ')' :: r =>
    if c = 'A' || c = 'B' || c = 'C' || c = 'D' then some (c, r.dropWhile isPySpace)
    else none
  | _ => none

/-- `re.match(r'^[A-D]\)', next_line)`. -/
def isOptionStart (l : Str) : Bool :=
  match l with
  | c :: ')' :: _ => c = 'A' || c = 'B' || c = 'C' || c = 'D'
  | _ => false

/-- `^\d+\.\s` (line 237) and `^\d+\.\s+` (line 259): both demand a digit
run, a dot and at least one whitespace character. -/
def isNumDotWS (l : Str) : Bool :=
  let ds := l.takeWhile Char.isDigit
  match l.dropWhile Char.isDigit with
  | '.' :: c :: _ => !ds.isEmpty && isPySpace c
  | _ => false

def datumShort : Str := str "Datum aktualizace"

def datePre : Str := str "Datum aktualizace testové úlohy:"

/-- `re.match(r'Datum aktualizace testové úlohy:\s*(.+)', line)`, returning
group 1.  The greedy `\s*` backs off one character when everything after
the prefix is whitespace, so that `.+` can still match. -/
def dateMatch (l : Str) : Option Str :=
  if datePre.isPrefixOf l then
    let rest := l.drop datePre.length
    if rest.isEmpty then none
    else
      let t := rest.dropWhile isPySpace
      if t.isEmpty then some (rest.drop (rest.length - 1)) else some t
  else none

/-- Stop condition of the continuation-collection loops
(lines 235-239 and 257-261), on the stripped look-ahead line. -/
def contStop (nl : Str) : Bool :=
  isOptionStart nl || datumShort.isPrefixOf nl || isNumDotWS nl ||
    containsSub (str "SPRÁVNÉ ŘEŠENÍ") nl || nl.isEmpty

/-- The mutable locals of the scan loop (lines 163-165) plus the already
emitted sections (`quiz_data.sections`). -/
structure ScanState where
  sections : List Section := []
  curSection : Option Section := none
  curQuestion : Option Question := none
  curAnswers : List (Nat × Char) := []
  deriving DecidableEq, Repr

/-- Parser mode: `collectQ` and `collectO` model the inner look-ahead
loops of the question and the option branch (the cursor `j`). -/
inductive Mode where
  | normal
  | collectQ (qid : Nat) (acc : Str) (qpage : Nat)
  | collectO (lab : Char) (acc : Str)
  deriving DecidableEq, Repr

/-- Lines 222-223: implicit placeholder section. -/
def ensureSection (st : ScanState) : ScanState :=
  match st.curSection with
  | none => { st with curSection := some { id := 0, name := str "(Pokračování)" } }
  | some _ => st

/-- Lines 228-229: commit an open question (with options) before starting
a new one.  As in the source, `curQuestion` is left in place; it is
overwritten once the new question's text has been collected. -/
def commitOpenQuestion (st : ScanState) : ScanState :=
  match st.curSection, st.curQuestion with
  | some s, some q =>
    if q.options.isEmpty then st
    else { st with curSection := some { s with questions := s.questions ++ [q] } }
  | _, _ => st

/-- Lines 188-191 (and in the same shape lines 210-212): commit an open
question with options to the current section and clear it. -/
def commitQBefore (st : ScanState) : ScanState :=
  match st.curSection, st.curQuestion with
  | some s, some q =>
    if q.options.isEmpty then st
    else { st with curSection := some { s with questions := s.questions ++ [q] },
                   curQuestion := none }
  | _, _ => st

/-- Lines 193-198: apply pending answers to the current section and emit it
(only when it has committed questions). -/
def commitSection (st : ScanState) : ScanState :=
  match st.curSection with
  | some s =>
    if s.questions.isEmpty then st
    else { st with sections :=
             st.sections ++ [{ s with questions := applyAnswers st.curAnswers s.questions }] }
  | none => st

/-- Lines 188-204: section-header branch. -/
def sectionStep (st : ScanState) (sid : Nat) (name : Str) : ScanState :=
  { commitSection (commitQBefore st) with
    curSection := some { id := sid, name := name },
    curQuestion := none, curAnswers := [] }

/-- Lines 209-217: answer-key branch.  Note that `curAnswers` is replaced
wholesale by the parse of this line. -/
def answersStep (st : ScanState) (nl : Str) : ScanState :=
  { commitQBefore st with curAnswers := parse_answers_line nl }

/-- Lines 271-275: date-annotation branch. -/
def dateStep (st : ScanState) (nl : Str) : ScanState :=
  match dateMatch nl, st.curQuestion with
  | some d, some q => { st with curQuestion := some { q with date := some (pyStrip d) } }
  | _, _ => st

/-- Lines 249-275: option branch, falling through to the date branch. -/
def optionOrDate (st : ScanState) (nl : Str) : ScanState × Mode :=
  match optionMatch nl with
  | some (lab, ot) =>
    if st.curQuestion.isSome then (st, .collectO lab ot) else (dateStep st nl, .normal)
  | none => (dateStep st nl, .normal)

/-- One iteration of the main `while` loop (lines 168-277) on the stripped
line `nl` from page `p`, outside the look-ahead loops. -/
def stepNormal (st : ScanState) (nl : Str) (p : Nat) : ScanState × Mode :=
  if nl.isEmpty || isPageNum nl then (st, .normal)
  else if nl = str "TESTOVÉ ÚLOHY" ∨ nl = str "OBČANSKÝ ZÁKLAD" then (st, .normal)
  else
    match sectionHeaderOf nl with
    | some (sid, name) => (sectionStep st sid name, .normal)
    | none =>
      if isAnswersLine nl then (answersStep st nl, .normal)
      else
        match questionMatch nl with
        | some (qn, qt) =>
          let st1 := ensureSection st
          if !pyIsUpperStr nl && (decide (qn ≤ 10) || nl.contains '?') then
            (commitOpenQuestion st1, .collectQ qn qt p)
          else optionOrDate st1 nl
        | none => optionOrDate st nl

/-- Line 244: materialise the collected question text. -/
def closeQ (st : ScanState) (qid : Nat) (acc : Str) (qpage : Nat) : ScanState :=
  { st with curQuestion := some { id := qid, text := clean_text acc, page := qpage } }

/-- Line 266: append the collected option to the current question. -/
def closeO (st : ScanState) (lab : Char) (acc : Str) : ScanState :=
  match st.curQuestion with
  | some q =>
    { st with curQuestion := some { q with options := q.options ++ [{ label := [lab], text := clean_text acc }] } }
  | none => st

def closeMode (m : Mode) (st : ScanState) : ScanState :=
  match m with
  | .normal => st
  | .collectQ qid acc qpage => closeQ st qid acc qpage
  | .collectO lab acc => closeO st lab acc

/-- Question-text continuation join (line 241). -/
def joinQ (acc nl : Str) : Str := if acc.isEmpty then nl else acc ++ ' ' :: nl

/-- Option-text continuation join (line 263). -/
def joinO (acc nl : Str) : Str := acc ++ ' ' :: nl

/-- The scan loop over `(line, page)` pairs (lines 168-277).  The source's
inner look-ahead loops (`j = i + 1; while ...`) are unrolled into the
collect modes: a non-stop look-ahead line is appended to the accumulator,
and a stop line first materialises the collected question or option
(`i = j` in the source) and is then handled by the ordinary branch cascade
of the next outer iteration, here in the same step.  The end of input
closes an open collection exactly as the inner loops do before the outer
loop exits. -/
def scanGo : Mode → ScanState → List (Str × Nat) → ScanState
  | m, st, [] => closeMode m st
  | m, st, (l, p) :: tl =>
    let nl := pyStrip l
    match m with
    | .normal =>
      let sm := stepNormal st nl p
      scanGo sm.2 sm.1 tl
    | .collectQ qid acc qpage =>
      if contStop nl then
        let sm := stepNormal (closeQ st qid acc qpage) nl p
        scanGo sm.2 sm.1 tl
      else scanGo (.collectQ qid (joinQ acc nl) qpage) st tl
    | .collectO lab acc =>
      if contStop nl then
        let sm := stepNormal (closeO st lab acc) nl p
        scanGo sm.2 sm.1 tl
      else scanGo (.collectO lab (joinO acc nl)) st tl

/-- Lines 279-286: the trailing commit after the scan. -/
def finalizeScan (st : ScanState) : List Section :=
  match st.curSection with
  | some s =>
    if s.questions.isEmpty then st.sections
    else
      let s2 :=
        match st.curQuestion with
        | some q => if q.options.isEmpty then s else { s with questions := s.questions ++ [q] }
        | none => s
      st.sections ++ [{ s2 with questions := applyAnswers st.curAnswers s2.questions }]
  | none => st.sections

def initState : ScanState := {}

/-- The pure text-parsing core of `parse_pdf` (lines 162-286): scan the
page-tagged stripped lines and return the committed sections. -/
def parseLines (lines : List (Str × Nat)) : List Section :=
  finalizeScan (scanGo .normal initState lines)

/-! ### Whitespace-normalisation properties of `clean_text` -/

/-- The first character is whitespace. -/
def headIsWS : Str → Bool
  | [] => false
  | c :: _ => isPySpace c

/-- No two adjacent whitespace characters. -/
def noDoubleWS : Str → Bool
  | a :: b :: t => !(isPySpace a && isPySpace b) && noDoubleWS (b :: t)
  | _ => true

/-- Every whitespace character is a plain space. -/
def wsOnlySpace (l : Str) : Bool := l.all fun c => !isPySpace c || c = ' '

/-- No leading or trailing whitespace, and no two consecutive whitespace
characters. -/
def normText (l : Str) : Bool := !headIsWS l && !headIsWS l.reverse && noDoubleWS l


/-! ### Invariants of the line scan -/

/-- `correct` is either empty or a single letter A-D. -/
def correctOk (c : Str) : Prop :=
  c = [] ∨ c = ['A'] ∨ c = ['B'] ∨ c = ['C'] ∨ c = ['D']

/-- Invariant of every `Question` the scan manipulates. -/
def QOk (q : Question) : Prop :=
  normText q.text = true ∧ correctOk q.correct ∧ ∀ o ∈ q.options, normText o.text = true

/-- Invariant of a question committed to a section. -/
def QCom (q : Question) : Prop := QOk q ∧ q.options ≠ []

def SOk (s : Section) : Prop := ∀ q ∈ s.questions, QCom q

def AnsOk (m : List (Nat × Char)) : Prop :=
  ∀ e ∈ m, e.2 = 'A' ∨ e.2 = 'B' ∨ e.2 = 'C' ∨ e.2 = 'D'

def StOk (st : ScanState) : Prop :=
  (∀ s ∈ st.sections, SOk s) ∧ (∀ s, st.curSection = some s → SOk s) ∧
    (∀ q, st.curQuestion = some q → QOk q) ∧ AnsOk st.curAnswers

/-! ### Image-to-question binder (`assign_images_to_questions`) -/

/-- The part of an extracted-image record that the binder reads. -/
structure ImgInfo where
  filename : Str
  deriving DecidableEq, Repr

/-- `images_by_page.get(p, [])` on the page-keyed grouping. -/
def getImages (ibp : List (Nat × List ImgInfo)) (p : Nat) : List ImgInfo :=
  match ibp.find? (fun e => e.1 == p) with
  | some e => e.2
  | none => []

/-- Line 325-327: known false positives. -/
def EXCLUDE_IMAGE : List (Nat × Nat) := [(17, 8)]

/-- Lines 329-337. -/
def IMAGE_KEYWORDS : List Str :=
  [str "obrázku", str "obrázek", str "obrázků",
   str "na obrázku", str "na mapě",
   str "bankovce",
   str "tato socha", str "této sochy",
   str "tato panovnice",
   str "tato budova", str "této budovy", str "tato stavba",
   str "tato hora"]

/-- Lines 346-347: the lowercased question text contains a keyword. -/
def mentionsImage (q : Question) : Bool :=
  IMAGE_KEYWORDS.any fun kw => containsSub kw (pyLower q.text)

/-- Lines 349-355: images on the question's page; if none and the question
mentions an image, the immediately following page. -/
def candidateImages (ibp : List (Nat × List ImgInfo)) (q : Question) : List ImgInfo :=
  let pageImages := getImages ibp q.page
  if pageImages.isEmpty && mentionsImage q then getImages ibp (q.page + 1) else pageImages

/-- `f"{images_dir}/{filename}"`. -/
def mkImagePath (dir fname : Str) : Str := dir ++ '/' :: fname

/-- Body of the per-question loop of `assign_images_to_questions`
(lines 339-373). -/
def assignQuestion (dir : Str) (ibp : List (Nat × List ImgInfo)) (sid : Nat)
    (q : Question) : Question :=
  if (sid, q.id) ∈ EXCLUDE_IMAGE then q
  else
    let pageImages := candidateImages ibp q
    if pageImages.isEmpty then q
    else
      let shortOptions := q.options.all fun o => decide (o.text.length < 50)
      let hasFourOptions := q.options.length == 4
      let hasFourPlusImages := decide (4 ≤ pageImages.length)
      if shortOptions && hasFourOptions && hasFourPlusImages && mentionsImage q then
        { q with options :=
            q.options.enum.map fun e =>
              match pageImages[e.1]? with
              | some im => { e.2 with image := some (mkImagePath dir im.filename) }
              | none => e.2 }
      else if decide (1 ≤ pageImages.length) && mentionsImage q then
        match pageImages with
        | im :: _ => { q with image := some (mkImagePath dir im.filename) }
        | [] => q
      else q

/-- `assign_images_to_questions`: one pass over the built tree. -/
def assign_images_to_questions (qd : QuizData) (ibp : List (Nat × List ImgInfo))
    (dir : Str) : QuizData :=
  { qd with sections :=
      qd.sections.map fun s =>
        { s with questions := s.questions.map (assignQuestion dir ibp s.id) } }

/-! ### Serializer (`convert_to_dict`) -/

/-- JSON-renderable values. -/
inductive JVal where
  | jstr (s : Str)
  | jnat (n : Nat)
  | jarr (items : List JVal)
  | jobj (fields : List (Str × JVal))
  deriving Repr

/-- Python truthiness of an optional string: `None` and `""` are falsy. -/
def pyTruthy : Option Str → Bool
  | none => false
  | some s => !s.isEmpty

/-- One option of the `options` comprehension (lines 389-394). -/
def optionToDict (o : Opt) : List (Str × JVal) :=
  [(str "label", .jstr o.label), (str "text", .jstr o.text)]
    ++ (if pyTruthy o.image then [(str "image", .jstr (o.image.getD []))] else [])

/-- One question of the `questions` comprehension (lines 385-399). -/
def questionToDict (q : Question) : List (Str × JVal) :=
  [(str "id", .jnat q.id), (str "text", .jstr q.text),
   (str "options", .jarr (q.options.map (fun o => .jobj (optionToDict o)))),
   (str "correct", .jstr q.correct)]
    ++ (if pyTruthy q.image then [(str "image", .jstr (q.image.getD []))] else [])
    ++ (if pyTruthy q.date then [(str "date", .jstr (q.date.getD []))] else [])

/-- One section of the `sections` comprehension (lines 381-402). -/
def sectionToDict (s : Section) : List (Str × JVal) :=
  [(str "id", .jnat s.id), (str "name", .jstr s.name),
   (str "questions", .jarr (s.questions.map (fun q => .jobj (questionToDict q))))]

/-- `convert_to_dict` (lines 376-405). -/
def convert_to_dict (qd : QuizData) : JVal :=
  .jobj [(str "source_file", .jstr qd.source_file),
         (str "sections", .jarr (qd.sections.map (fun s => .jobj (sectionToDict s))))]

/-- The keys of an object value, in order. -/
def objKeys : List (Str × JVal) → List Str := fun l => l.map Prod.fst

/-! ### Validator final status (`validate_images.main`, lines 98-149) -/

/-- `dir_images - json_images` on distinct filenames. -/
def orphanedOf (dirImgs jsonImgs : List Str) : List Str :=
  dirImgs.dedup.filter fun f => !jsonImgs.contains f

/-- `json_images - dir_images` on distinct filenames. -/
def missingOf (dirImgs jsonImgs : List Str) : List Str :=
  jsonImgs.dedup.filter fun f => !dirImgs.contains f

/-- Exit code and whether the orphan warning was chosen, from the final
status block (lines 139-149). -/
def validatorStatus (dirImgs jsonImgs : List Str) : Nat × Bool :=
  let missing := missingOf dirImgs jsonImgs
  let orphaned := orphanedOf dirImgs jsonImgs
  if !missing.isEmpty then (1, false)
  else if orphaned.length > 5 then (0, true)
  else (0, false)

/-! ### Concrete example inputs -/

/-- A section whose only question is still open when the input ends. -/
def exC1 : List (Str × Nat) :=
  [(str "1. DĚJINY", 1), (str "1. Co?", 1), (str "A) x", 1)]

/-- A section with one committed question and one trailing open question. -/
def exC1w : List (Str × Nat) :=
  [(str "1. DĚJINY", 1), (str "1. Co?", 1), (str "A) x", 1),
   (str "2. Kdo?", 2), (str "B) y", 2)]

def exC1wQ1 : Question :=
  { id := 1, text := str "Co?", options := [{ label := ['A'], text := str "x" }], page := 1 }

def exC1wSec : Section := { id := 1, name := str "DĚJINY", questions := [exC1wQ1] }

def exC1wQ2 : Question :=
  { id := 2, text := str "Kdo?", options := [{ label := ['B'], text := str "y" }], page := 2 }

/-- The answer key assigns letter C to a question whose only option is A. -/
def exC2 : List (Str × Nat) :=
  [(str "1. DĚJINY", 1), (str "1. Co?", 1), (str "A) x", 1), (str "SPRÁVNÉ ŘEŠENÍ: 1C", 1)]

def exC2q : Question :=
  { id := 1, text := str "Co?", options := [{ label := ['A'], text := str "x" }],
    correct := ['C'], page := 1 }

def exC2sec : Section := { id := 1, name := str "DĚJINY", questions := [exC2q] }

/-- Two answer-key lines in the same section; id 1 appears only on the
first one. -/
def exC3 : List (Str × Nat) :=
  [(str "1. DĚJINY", 1), (str "1. Co?", 1), (str "A) x", 1), (str "SPRÁVNÉ ŘEŠENÍ: 1A", 1),
   (str "2. Kdo?", 1), (str "A) y", 1), (str "SPRÁVNÉ ŘEŠENÍ: 2B", 1)]

/-- A state with a pending answer entry, replaced by the next key line. -/
def exSt3 : ScanState := { curSection := some { id := 1, name := str "DĚJINY" },
                           curAnswers := [(1, 'A')] }

/-- Input with messy interior whitespace in question and option text. -/
def exC10 : List (Str × Nat) :=
  [(str "1. DĚJINY", 1), (str "1.  Co  je ?", 1), (str "A)  x   y", 1),
   (str "SPRÁVNÉ ŘEŠENÍ: 1A", 1)]

def exC10opt : Opt := { label := ['A'], text := str "x y" }

def exC10q : Question :=
  { id := 1, text := str "Co je ?", options := [exC10opt], correct := ['A'], page := 1 }

def exC10sec : Section := { id := 1, name := str "DĚJINY", questions := [exC10q] }

/-- Two keyword-matching questions on the same page, one curated image. -/
def exC5doc : QuizData :=
  { source_file := str "t.pdf",
    sections := [{ id := 1, name := str "DĚJINY",
                   questions :=
                     [{ id := 1, text := str "Co je na obrázku?",
                        options := [{ label := ['A'], text := str "x" }], page := 3 },
                      { id := 2, text := str "Co je na obrázku?",
                        options := [{ label := ['A'], text := str "y" }], page := 3 }] }] }

def exC5ibp : List (Nat × List ImgInfo) := [(3, [{ filename := str "page03_img01.png" }])]

/-- A grid-case question: 4 short options, 4 images on its page. -/
def exC6q : Question :=
  { id := 3, text := str "Která socha je na obrázku?",
    options := [{ label := ['A'], text := str "a" }, { label := ['B'], text := str "b" },
                { label := ['C'], text := str "c" }, { label := ['D'], text := str "d" }],
    page := 5 }

def exC6ibp : List (Nat × List ImgInfo) :=
  [(5, [{ filename := str "page05_img01.png" }, { filename := str "page05_img02.png" },
        { filename := str "page05_img03.png" }, { filename := str "page05_img04.png" }])]

/-- An excluded question mentioning a keyword, with images on its page. -/
def exC7q : Question :=
  { id := 8, text := str "Jak vysoká je tato hora?",
    options := [{ label := ['A'], text := str "a" }], page := 9 }

def exC7ibp : List (Nat × List ImgInfo) := [(9, [{ filename := str "page09_img01.png" }])]

/-- All image paths assigned anywhere in a document (question-level and
option-level), in document order. -/
def assignedImages (qd : QuizData) : List Str :=
  (qd.sections.map fun s =>
    (s.questions.map fun q => q.image.toList ++ q.options.filterMap Opt.image).flatten).flatten

/-- On-disk filenames for the validator example: seven files, one
referenced. -/
def exDirs : List Str :=
  [str "a.png", str "b.png", str "c.png", str "d.png", str "e.png", str "f.png", str "g.png"]

def exJsons : List Str := [str "a.png"]


theorem noDoubleWS_cons (a : Char) (r : Str) :
    noDoubleWS (a :: r) = (!(isPySpace a && headIsWS r) && noDoubleWS r) := by
  cases r <;> simp [noDoubleWS, headIsWS]

theorem isPySpace_space : isPySpace ' ' = true := rfl

theorem wsOnlySpace_iff (l : Str) :
    wsOnlySpace l = true ↔ ∀ c ∈ l, isPySpace c = true → c = ' ' := by
  simp only [wsOnlySpace, List.all_eq_true, Bool.or_eq_true, Bool.not_eq_true',
    decide_eq_true_eq]
  constructor
  · intro h c hc hsp
    rcases h c hc with h1 | h1
    · rw [hsp] at h1; cases h1
    · exact h1
  · intro h c hc
    by_cases hsp : isPySpace c = true
    · exact Or.inr (h c hc hsp)
    · exact Or.inl (by simpa using hsp)

theorem mem_subWSAux (c : Char) (l : Str) :
    ∀ b, c ∈ subWSAux b l → c = ' ' ∨ (c ∈ l ∧ isPySpace c = false) := by
  induction l with
  | nil => intro b h; cases h
  | cons a as ih =>
    intro b h
    unfold subWSAux at h
    by_cases ha : isPySpace a = true
    · rw [if_pos ha] at h
      cases b
      · rw [if_neg (by simp)] at h
        rcases List.mem_cons.mp h with h1 | h1
        · exact Or.inl h1
        · rcases ih true h1 with h2 | h2
          · exact Or.inl h2
          · exact Or.inr ⟨List.mem_cons_of_mem a h2.1, h2.2⟩
      · rw [if_pos rfl] at h
        rcases ih true h with h2 | h2
        · exact Or.inl h2
        · exact Or.inr ⟨List.mem_cons_of_mem a h2.1, h2.2⟩
    · rw [if_neg ha] at h
      rcases List.mem_cons.mp h with h1 | h1
      · refine Or.inr ⟨h1 ▸ List.mem_cons_self a as, ?_⟩
        rw [h1]
        simpa using ha
      · rcases ih false h1 with h2 | h2
        · exact Or.inl h2
        · exact Or.inr ⟨List.mem_cons_of_mem a h2.1, h2.2⟩

theorem subWSAux_wsOnly (l : Str) (b : Bool) : wsOnlySpace (subWSAux b l) = true := by
  rw [wsOnlySpace_iff]
  intro c hc hsp
  rcases mem_subWSAux c l b hc with h | h
  · exact h
  · rw [h.2] at hsp; cases hsp

theorem subWSAux_noDouble (l : Str) :
    noDoubleWS (subWSAux false l) = true ∧ noDoubleWS (subWSAux true l) = true ∧
      headIsWS (subWSAux true l) = false := by
  induction l with
  | nil => exact ⟨rfl, rfl, rfl⟩
  | cons c cs ih =>
    obtain ⟨ihF, ihT, ihH⟩ := ih
    by_cases hc : isPySpace c = true
    · refine ⟨?_, ?_, ?_⟩ <;> simp [subWSAux, hc]
      · rw [noDoubleWS_cons]
        simp [ihT, ihH]
      · exact ihT
      · simpa [headIsWS] using ihH
    · refine ⟨?_, ?_, ?_⟩ <;> simp [subWSAux, hc]
      · rw [noDoubleWS_cons]
        simp [ihF, headIsWS, hc]
      · rw [noDoubleWS_cons]
        simp [ihF, headIsWS, hc]
      · simp [headIsWS, hc]

theorem subWSAux_id (l : Str) :
    (wsOnlySpace l = true → noDoubleWS l = true → subWSAux false l = l) ∧
      (wsOnlySpace l = true → noDoubleWS l = true → headIsWS l = false →
        subWSAux true l = l) := by
  induction l with
  | nil => exact ⟨fun _ _ => rfl, fun _ _ _ => rfl⟩
  | cons c cs ih =>
    obtain ⟨ihF, ihT⟩ := ih
    by_cases hc : isPySpace c = true
    · constructor
      · intro hws hnd
        have hsp : c = ' ' :=
          (wsOnlySpace_iff _).mp hws c (List.mem_cons_self c cs) hc
        have hh : headIsWS cs = false := by
          rw [noDoubleWS_cons] at hnd
          simp [hc] at hnd
          exact hnd.1
        have hws' : wsOnlySpace cs = true := by
          rw [wsOnlySpace_iff] at hws ⊢
          exact fun a ha => hws a (List.mem_cons_of_mem c ha)
        have hnd' : noDoubleWS cs = true := by
          rw [noDoubleWS_cons] at hnd
          exact (Bool.and_eq_true_iff.mp hnd).2
        subst hsp
        unfold subWSAux
        rw [if_pos hc, if_neg (by simp), ihT hws' hnd' hh]
      · intro _ _ hh
        simp [headIsWS, hc] at hh
    · constructor
      · intro hws hnd
        have hws' : wsOnlySpace cs = true := by
          rw [wsOnlySpace_iff] at hws ⊢
          exact fun a ha => hws a (List.mem_cons_of_mem c ha)
        have hnd' : noDoubleWS cs = true := by
          rw [noDoubleWS_cons] at hnd
          exact (Bool.and_eq_true_iff.mp hnd).2
        unfold subWSAux
        rw [if_neg hc, ihF hws' hnd']
      · intro hws hnd _
        have hws' : wsOnlySpace cs = true := by
          rw [wsOnlySpace_iff] at hws ⊢
          exact fun a ha => hws a (List.mem_cons_of_mem c ha)
        have hnd' : noDoubleWS cs = true := by
          rw [noDoubleWS_cons] at hnd
          exact (Bool.and_eq_true_iff.mp hnd).2
        unfold subWSAux
        rw [if_neg hc, ihF hws' hnd']

theorem headIsWS_dropWhile (l : Str) : headIsWS (l.dropWhile isPySpace) = false := by
  induction l with
  | nil => rfl
  | cons c cs ih =>
    by_cases hc : isPySpace c = true
    · simpa [List.dropWhile, hc] using ih
    · simp [List.dropWhile, hc, headIsWS]

theorem dropWhile_decomp (p : Char → Bool) (l : Str) : ∃ t, t ++ l.dropWhile p = l := by
  induction l with
  | nil => exact ⟨[], rfl⟩
  | cons c cs ih =>
    by_cases hc : p c = true
    · obtain ⟨t, ht⟩ := ih
      exact ⟨c :: t, by simp [List.dropWhile, hc, ht]⟩
    · exact ⟨[], by simp [List.dropWhile, hc]⟩

theorem dropWhile_of_headNot (l : Str) (h : headIsWS l = false) :
    l.dropWhile isPySpace = l := by
  cases l with
  | nil => rfl
  | cons c cs =>
    simp [headIsWS] at h
    simp [List.dropWhile, h]

theorem noDoubleWS_append_right (t s : Str) (h : noDoubleWS (t ++ s) = true) :
    noDoubleWS s = true := by
  induction t with
  | nil => exact h
  | cons a t ih =>
    rw [List.cons_append, noDoubleWS_cons] at h
    exact ih (Bool.and_eq_true_iff.mp h).2

theorem noDoubleWS_append_left (s t : Str) (h : noDoubleWS (s ++ t) = true) :
    noDoubleWS s = true := by
  induction s with
  | nil => rfl
  | cons a s ih =>
    rw [List.cons_append, noDoubleWS_cons] at h
    obtain ⟨h1, h2⟩ := Bool.and_eq_true_iff.mp h
    rw [noDoubleWS_cons]
    refine Bool.and_eq_true_iff.mpr ⟨?_, ih h2⟩
    cases s with
    | nil => simp [headIsWS]
    | cons b s2 => simpa [headIsWS] using h1

theorem headIsWS_of_prefix (s t l : Str) (hst : s ++ t = l) (h : headIsWS l = false) :
    headIsWS s = false := by
  cases s with
  | nil => rfl
  | cons a s2 =>
    subst hst
    simpa [headIsWS] using h

/-- `pyStrip l` is a prefix of `l.dropWhile isPySpace`. -/
theorem pyStrip_decomp (l : Str) : ∃ t, pyStrip l ++ t = l.dropWhile isPySpace := by
  obtain ⟨t, ht⟩ := dropWhile_decomp isPySpace (l.dropWhile isPySpace).reverse
  refine ⟨t.reverse, ?_⟩
  have := congrArg List.reverse ht
  simpa [pyStrip, List.reverse_append] using this

theorem headIsWS_pyStrip (l : Str) : headIsWS (pyStrip l) = false := by
  obtain ⟨t, ht⟩ := pyStrip_decomp l
  exact headIsWS_of_prefix _ t _ ht (headIsWS_dropWhile l)

theorem headIsWS_pyStrip_reverse (l : Str) : headIsWS (pyStrip l).reverse = false := by
  have : (pyStrip l).reverse = (l.dropWhile isPySpace).reverse.dropWhile isPySpace := by
    simp [pyStrip]
  rw [this]
  exact headIsWS_dropWhile _

theorem noDoubleWS_pyStrip (l : Str) (h : noDoubleWS l = true) :
    noDoubleWS (pyStrip l) = true := by
  obtain ⟨t1, ht1⟩ := dropWhile_decomp isPySpace l
  have h1 : noDoubleWS (l.dropWhile isPySpace) = true := by
    rw [← ht1] at h
    exact noDoubleWS_append_right _ _ h
  obtain ⟨t2, ht2⟩ := pyStrip_decomp l
  rw [← ht2] at h1
  exact noDoubleWS_append_left _ _ h1

theorem wsOnlySpace_pyStrip (l : Str) (h : wsOnlySpace l = true) :
    wsOnlySpace (pyStrip l) = true := by
  simp only [wsOnlySpace, List.all_eq_true] at h ⊢
  intro c hc
  apply h
  have h1 : c ∈ (l.dropWhile isPySpace).reverse.dropWhile isPySpace := by
    simpa [pyStrip] using hc
  have h2 : c ∈ (l.dropWhile isPySpace).reverse := (List.dropWhile_sublist _).subset h1
  have h3 : c ∈ l.dropWhile isPySpace := by simpa using h2
  exact (List.dropWhile_sublist _).subset h3

theorem pyStrip_id (l : Str) (h1 : headIsWS l = false) (h2 : headIsWS l.reverse = false) :
    pyStrip l = l := by
  unfold pyStrip
  rw [dropWhile_of_headNot l h1, dropWhile_of_headNot l.reverse h2, List.reverse_reverse]

theorem clean_text_normText (l : Str) : normText (clean_text l) = true := by
  have hnd : noDoubleWS (subWS l) = true := (subWSAux_noDouble l).1
  unfold normText
  simp [clean_text, headIsWS_pyStrip, headIsWS_pyStrip_reverse, noDoubleWS_pyStrip _ hnd]

theorem clean_text_wsOnly (l : Str) : wsOnlySpace (clean_text l) = true :=
  wsOnlySpace_pyStrip _ (subWSAux_wsOnly l false)

theorem clean_text_of_norm (l : Str) (hn : normText l = true) (hw : wsOnlySpace l = true) :
    clean_text l = l := by
  unfold normText at hn
  simp only [Bool.and_eq_true, Bool.not_eq_true'] at hn
  obtain ⟨⟨h1, h2⟩, h3⟩ := hn
  unfold clean_text subWS
  rw [(subWSAux_id l).1 hw h3, pyStrip_id l h1 h2]

/-- `clean_text` is idempotent. -/
theorem clean_text_idem (l : Str) : clean_text (clean_text l) = clean_text l :=
  clean_text_of_norm _ (clean_text_normText l) (clean_text_wsOnly l)

theorem findAnswerTokens_nil (acc : Option Nat) : findAnswerTokens acc [] = [] := by
  cases acc <;> rfl

theorem findAnswerTokens_letters (l : Str) : ∀ acc, AnsOk (findAnswerTokens acc l) := by
  induction l with
  | nil =>
    intro acc e he
    rw [findAnswerTokens_nil] at he
    cases he
  | cons c cs ih =>
    intro acc
    cases acc with
    | none =>
      unfold findAnswerTokens
      by_cases hd : c.isDigit = true
      · rw [if_pos hd]; exact ih _
      · rw [if_neg hd]; exact ih _
    | some n =>
      unfold findAnswerTokens
      by_cases hd : c.isDigit = true
      · rw [if_pos hd]; exact ih _
      · rw [if_neg hd]
        by_cases hl : (c = 'A' || c = 'B' || c = 'C' || c = 'D') = true
        · rw [if_pos hl]
          intro e he
          rcases List.mem_cons.mp he with h1 | h1
          · subst h1
            have hl' := hl
            simp only [Bool.or_eq_true, decide_eq_true_eq] at hl'
            rcases hl' with ((h | h) | h) | h <;> simp [h]
          · exact ih none e h1
        · rw [if_neg hl]; exact ih _

theorem parse_answers_line_letters (l : Str) : AnsOk (parse_answers_line l) :=
  findAnswerTokens_letters l none

theorem lookupAns_letter (m : List (Nat × Char)) (hm : AnsOk m) (n : Nat) (c : Char)
    (h : lookupAns m n = some c) : c = 'A' ∨ c = 'B' ∨ c = 'C' ∨ c = 'D' := by
  induction m with
  | nil => cases h
  | cons e tl ih =>
    have htl : AnsOk tl := fun x hx => hm x (List.mem_cons_of_mem e hx)
    obtain ⟨k, c0⟩ := e
    unfold lookupAns at h
    cases hrec : lookupAns tl n with
    | some c2 =>
      rw [hrec] at h
      injection h with h
      subst h
      exact ih htl hrec
    | none =>
      rw [hrec] at h
      by_cases hk : k = n
      · rw [if_pos hk] at h
        injection h with h
        subst h
        simpa using hm (k, c0) (List.mem_cons_self _ _)
      · rw [if_neg hk] at h
        cases h

theorem applyAnswers_QCom (m : List (Nat × Char)) (hm : AnsOk m) (qs : List Question)
    (hqs : ∀ q ∈ qs, QCom q) : ∀ q ∈ applyAnswers m qs, QCom q := by
  intro q hq
  unfold applyAnswers at hq
  rcases List.mem_map.mp hq with ⟨q0, hq0, heq⟩
  obtain ⟨⟨ht, hc, ho⟩, hne⟩ := hqs q0 hq0
  cases hl : lookupAns m q0.id with
  | none =>
    rw [hl] at heq
    subst heq
    exact ⟨⟨ht, hc, ho⟩, hne⟩
  | some c =>
    rw [hl] at heq
    subst heq
    refine ⟨⟨ht, ?_, ho⟩, hne⟩
    rcases lookupAns_letter m hm q0.id c hl with h | h | h | h <;>
      simp [correctOk, h]

theorem commitQ_SOk {s : Section} {q : Question} (hs : SOk s) (hq : QOk q)
    (hopts : q.options ≠ []) : SOk { s with questions := s.questions ++ [q] } := by
  intro q2 hq2
  have hq2' : q2 ∈ s.questions ++ [q] := hq2
  rcases List.mem_append.mp hq2' with h | h
  · exact hs q2 h
  · rw [List.mem_singleton] at h
    subst h
    exact ⟨hq, hopts⟩

theorem StOk_init : StOk initState := by
  refine ⟨?_, ?_, ?_, ?_⟩
  · intro s hs; cases hs
  · intro s hs; cases hs
  · intro q hq; cases hq
  · intro e he; cases he

theorem ensureSection_ok {st : ScanState} (h : StOk st) : StOk (ensureSection st) := by
  obtain ⟨secs, cs, cq, ans⟩ := st
  obtain ⟨h1, h2, h3, h4⟩ := h
  cases cs with
  | none =>
    refine ⟨h1, ?_, h3, h4⟩
    intro s hs
    injection hs with hs
    subst hs
    intro q hq
    cases hq
  | some s0 => exact ⟨h1, h2, h3, h4⟩

theorem commitOpenQuestion_ok {st : ScanState} (h : StOk st) :
    StOk (commitOpenQuestion st) := by
  obtain ⟨secs, cs, cq, ans⟩ := st
  obtain ⟨h1, h2, h3, h4⟩ := h
  cases cs with
  | none => exact ⟨h1, h2, h3, h4⟩
  | some s =>
    cases cq with
    | none => exact ⟨h1, h2, h3, h4⟩
    | some q =>
      unfold commitOpenQuestion
      dsimp only
      by_cases he : q.options.isEmpty = true
      · rw [if_pos he]; exact ⟨h1, h2, h3, h4⟩
      · rw [if_neg he]
        refine ⟨h1, ?_, h3, h4⟩
        intro s2 hs2
        injection hs2 with hs2
        subst hs2
        exact commitQ_SOk (h2 s rfl) (h3 q rfl) (by simpa using he)

theorem commitQBefore_ok {st : ScanState} (h : StOk st) : StOk (commitQBefore st) := by
  obtain ⟨secs, cs, cq, ans⟩ := st
  obtain ⟨h1, h2, h3, h4⟩ := h
  cases cs with
  | none => exact ⟨h1, h2, h3, h4⟩
  | some s =>
    cases cq with
    | none => exact ⟨h1, h2, h3, h4⟩
    | some q =>
      unfold commitQBefore
      dsimp only
      by_cases he : q.options.isEmpty = true
      · rw [if_pos he]; exact ⟨h1, h2, h3, h4⟩
      · rw [if_neg he]
        refine ⟨h1, ?_, ?_, h4⟩
        · intro s2 hs2
          injection hs2 with hs2
          subst hs2
          exact commitQ_SOk (h2 s rfl) (h3 q rfl) (by simpa using he)
        · intro q2 hq2
          cases hq2

theorem commitSection_ok {st : ScanState} (h : StOk st) : StOk (commitSection st) := by
  obtain ⟨secs, cs, cq, ans⟩ := st
  obtain ⟨h1, h2, h3, h4⟩ := h
  cases cs with
  | none => exact ⟨h1, h2, h3, h4⟩
  | some s =>
    unfold commitSection
    dsimp only
    by_cases he : s.questions.isEmpty = true
    · rw [if_pos he]; exact ⟨h1, h2, h3, h4⟩
    · rw [if_neg he]
      refine ⟨?_, h2, h3, h4⟩
      intro s2 hs2
      have hs2' : s2 ∈ secs ++
          [{ s with questions := applyAnswers ans s.questions }] := hs2
      rcases List.mem_append.mp hs2' with hmem | hmem
      · exact h1 s2 hmem
      · rw [List.mem_singleton] at hmem
        subst hmem
        exact applyAnswers_QCom _ h4 _ (h2 s rfl)

theorem sectionStep_ok {st : ScanState} (h : StOk st) (sid : Nat) (name : Str) :
    StOk (sectionStep st sid name) := by
  obtain ⟨h1, h2, h3, h4⟩ := commitSection_ok (commitQBefore_ok h)
  refine ⟨h1, ?_, ?_, ?_⟩
  · intro s hs
    injection hs with hs
    subst hs
    intro q hq
    cases hq
  · intro q hq
    cases hq
  · intro e he
    cases he

theorem answersStep_ok {st : ScanState} (h : StOk st) (nl : Str) :
    StOk (answersStep st nl) := by
  obtain ⟨h1, h2, h3, h4⟩ := commitQBefore_ok h
  exact ⟨h1, h2, h3, parse_answers_line_letters nl⟩

theorem dateStep_ok {st : ScanState} (h : StOk st) (nl : Str) : StOk (dateStep st nl) := by
  obtain ⟨secs, cs, cq, ans⟩ := st
  obtain ⟨h1, h2, h3, h4⟩ := h
  unfold dateStep
  cases hd : dateMatch nl with
  | none =>
    cases cq <;> exact ⟨h1, h2, h3, h4⟩
  | some d =>
    cases cq with
    | none => exact ⟨h1, h2, h3, h4⟩
    | some q =>
      dsimp only
      refine ⟨h1, h2, ?_, h4⟩
      intro q2 hq2
      injection hq2 with hq2
      subst hq2
      obtain ⟨ht, hc, ho⟩ := h3 q rfl
      exact ⟨ht, hc, ho⟩

theorem optionOrDate_ok {st : ScanState} (h : StOk st) (nl : Str) :
    StOk (optionOrDate st nl).1 := by
  unfold optionOrDate
  cases hm : optionMatch nl with
  | none => exact dateStep_ok h nl
  | some lo =>
    obtain ⟨lab, ot⟩ := lo
    dsimp only
    by_cases hq : st.curQuestion.isSome = true
    · rw [if_pos hq]; exact h
    · rw [if_neg hq]; exact dateStep_ok h nl

theorem stepNormal_ok {st : ScanState} (h : StOk st) (nl : Str) (p : Nat) :
    StOk (stepNormal st nl p).1 := by
  unfold stepNormal
  by_cases h1 : (nl.isEmpty || isPageNum nl) = true
  · rw [if_pos h1]; exact h
  · rw [if_neg h1]
    by_cases h2 : nl = str "TESTOVÉ ÚLOHY" ∨ nl = str "OBČANSKÝ ZÁKLAD"
    · rw [if_pos h2]; exact h
    · rw [if_neg h2]
      cases hs : sectionHeaderOf nl with
      | some sn =>
        obtain ⟨sid, name⟩ := sn
        exact sectionStep_ok h sid name
      | none =>
        dsimp only
        by_cases h3 : isAnswersLine nl = true
        · rw [if_pos h3]; exact answersStep_ok h nl
        · rw [if_neg h3]
          cases hq : questionMatch nl with
          | some qp =>
            obtain ⟨qn, qt⟩ := qp
            dsimp only
            by_cases h4 : (!pyIsUpperStr nl && (decide (qn ≤ 10) || nl.contains '?')) = true
            · rw [if_pos h4]
              exact commitOpenQuestion_ok (ensureSection_ok h)
            · rw [if_neg h4]
              exact optionOrDate_ok (ensureSection_ok h) nl
          | none => exact optionOrDate_ok h nl

theorem closeQ_ok {st : ScanState} (h : StOk st) (qid : Nat) (acc : Str) (qpage : Nat) :
    StOk (closeQ st qid acc qpage) := by
  obtain ⟨h1, h2, h3, h4⟩ := h
  refine ⟨h1, h2, ?_, h4⟩
  intro q hq
  injection hq with hq
  subst hq
  refine ⟨clean_text_normText acc, Or.inl rfl, ?_⟩
  intro o ho
  cases ho

theorem closeO_ok {st : ScanState} (h : StOk st) (lab : Char) (acc : Str) :
    StOk (closeO st lab acc) := by
  obtain ⟨secs, cs, cq, ans⟩ := st
  obtain ⟨h1, h2, h3, h4⟩ := h
  cases cq with
  | none => exact ⟨h1, h2, h3, h4⟩
  | some q =>
    unfold closeO
    dsimp only
    refine ⟨h1, h2, ?_, h4⟩
    intro q2 hq2
    injection hq2 with hq2
    subst hq2
    obtain ⟨ht, hc, ho⟩ := h3 q rfl
    refine ⟨ht, hc, ?_⟩
    intro o ho2
    have ho2' : o ∈ q.options ++ [{ label := [lab], text := clean_text acc }] := ho2
    rcases List.mem_append.mp ho2' with hmem | hmem
    · exact ho o hmem
    · rw [List.mem_singleton] at hmem
      subst hmem
      exact clean_text_normText acc

theorem closeMode_ok {st : ScanState} (h : StOk st) (m : Mode) : StOk (closeMode m st) := by
  cases m with
  | normal => exact h
  | collectQ qid acc qpage => exact closeQ_ok h qid acc qpage
  | collectO lab acc => exact closeO_ok h lab acc

theorem scanGo_ok (lines : List (Str × Nat)) :
    ∀ (m : Mode) (st : ScanState), StOk st → StOk (scanGo m st lines) := by
  induction lines with
  | nil => intro m st h; exact closeMode_ok h m
  | cons lp tl ih =>
    intro m st h
    obtain ⟨l, p⟩ := lp
    cases m with
    | normal =>
      unfold scanGo
      dsimp only
      exact ih _ _ (stepNormal_ok h _ p)
    | collectQ qid acc qpage =>
      unfold scanGo
      dsimp only
      by_cases hstop : contStop (pyStrip l) = true
      · rw [if_pos hstop]
        exact ih _ _ (stepNormal_ok (closeQ_ok h qid acc qpage) _ p)
      · rw [if_neg hstop]
        exact ih _ _ h
    | collectO lab acc =>
      unfold scanGo
      dsimp only
      by_cases hstop : contStop (pyStrip l) = true
      · rw [if_pos hstop]
        exact ih _ _ (stepNormal_ok (closeO_ok h lab acc) _ p)
      · rw [if_neg hstop]
        exact ih _ _ h

theorem finalizeScan_SOk {st : ScanState} (h : StOk st) :
    ∀ s ∈ finalizeScan st, SOk s := by
  obtain ⟨secs, cs, cq, ans⟩ := st
  obtain ⟨h1, h2, h3, h4⟩ := h
  intro s hs
  unfold finalizeScan at hs
  cases cs with
  | none => exact h1 s hs
  | some s0 =>
    dsimp only at hs
    by_cases he : s0.questions.isEmpty = true
    · rw [if_pos he] at hs
      exact h1 s hs
    · rw [if_neg he] at hs
      have hs0 : SOk s0 := h2 s0 rfl
      cases cq with
      | none =>
        dsimp only at hs
        rcases List.mem_append.mp hs with hmem | hmem
        · exact h1 s hmem
        · rw [List.mem_singleton] at hmem
          subst hmem
          exact applyAnswers_QCom _ h4 _ hs0
      | some q =>
        dsimp only at hs
        by_cases hqe : q.options.isEmpty = true
        · rw [if_pos hqe] at hs
          rcases List.mem_append.mp hs with hmem | hmem
          · exact h1 s hmem
          · rw [List.mem_singleton] at hmem
            subst hmem
            exact applyAnswers_QCom _ h4 _ hs0
        · rw [if_neg hqe] at hs
          rcases List.mem_append.mp hs with hmem | hmem
          · exact h1 s hmem
          · rw [List.mem_singleton] at hmem
            subst hmem
            exact applyAnswers_QCom _ h4 _
              (commitQ_SOk hs0 (h3 q rfl) (by simpa using hqe))

/-- Every section produced by the scan satisfies the committed-question
invariant. -/
theorem parseLines_SOk (lines : List (Str × Nat)) :
    ∀ s ∈ parseLines lines, SOk s := by
  intro s hs
  exact finalizeScan_SOk (scanGo_ok lines .normal initState StOk_init) s hs

/-- Helper: the exact effect of the trailing commit (lines 279-286) when a
section and a question with options are open. -/
theorem finalizeScan_commit (st : ScanState) (s : Section) (q : Question)
    (hs : st.curSection = some s) (hq : st.curQuestion = some q)
    (hopts : q.options ≠ []) :
    finalizeScan st = st.sections ++
      (if s.questions.isEmpty then []
       else [⟨s.id, s.name, applyAnswers st.curAnswers (s.questions ++ [q])⟩]) := by
  obtain ⟨secs, cs, cq, ans⟩ := st
  dsimp only at hs hq ⊢
  subst hs
  subst hq
  unfold finalizeScan
  dsimp only
  by_cases he : s.questions.isEmpty = true
  · rw [if_pos he, if_pos he]
    simp
  · rw [if_neg he, if_neg he,
      if_neg (show ¬q.options.isEmpty = true from by simpa using hopts)]

/-- Helper: a lookup misses when no entry carries the key. -/
theorem lookupAns_eq_none (m : List (Nat × Char)) (n : Nat)
    (h : m.all (fun e => !(e.1 == n)) = true) : lookupAns m n = none := by
  induction m with
  | nil => rfl
  | cons e tl ih =>
    obtain ⟨k, c0⟩ := e
    rw [List.all_cons] at h
    obtain ⟨hk, htl⟩ := Bool.and_eq_true_iff.mp h
    unfold lookupAns
    rw [ih htl]
    rw [if_neg (by simpa using hk)]

/-- C1: the claim demands that a trailing open section and open question
(with an option) are always committed; on an input where the open question
would be the section's only question, the code drops both. -/
theorem C1_counterexample :
    (scanGo .normal initState exC1).curSection.isSome = true ∧
    ((scanGo .normal initState exC1).curQuestion.elim false fun q => !q.options.isEmpty)
      = true ∧
    parseLines exC1 = [] := by decide

/-- C1 (amended): at the end of the scan, an open question with at least
one option is committed together with the open section, with pending
answer letters applied, exactly when the section already holds at least
one committed question; otherwise the question and the section are both
dropped. -/
theorem C1_trailing_commit (lines : List (Str × Nat)) (s : Section) (q : Question)
    (hs : (scanGo .normal initState lines).curSection = some s)
    (hq : (scanGo .normal initState lines).curQuestion = some q)
    (hopts : q.options ≠ []) :
    parseLines lines =
      (scanGo .normal initState lines).sections ++
        (if s.questions.isEmpty then []
         else [⟨s.id, s.name,
                applyAnswers (scanGo .normal initState lines).curAnswers
                  (s.questions ++ [q])⟩]) :=
  finalizeScan_commit _ s q hs hq hopts

theorem C1_witness :
    parseLines exC1w =
      (scanGo .normal initState exC1w).sections ++
        (if exC1wSec.questions.isEmpty then []
         else [⟨exC1wSec.id, exC1wSec.name,
                applyAnswers (scanGo .normal initState exC1w).curAnswers
                  (exC1wSec.questions ++ [exC1wQ2])⟩]) :=
  C1_trailing_commit exC1w exC1wSec exC1wQ2 (by decide) (by decide) (by decide)

/-- C2: the claim demands that `correct` is empty or one of the question's
option labels; an answer key may assign a letter that is not among the
labels. -/
theorem C2_counterexample :
    ¬ (∀ s ∈ parseLines exC2, ∀ q ∈ s.questions,
        q.correct = [] ∨ q.correct ∈ q.options.map Opt.label) := by decide

/-- C2 (amended): for every produced question, `correct` is either empty
or a single letter A-D coming from the answer key; it need not be among
the question's option labels. -/
theorem C2_correct_letter (lines : List (Str × Nat)) (s : Section) (q : Question)
    (hs : s ∈ parseLines lines) (hq : q ∈ s.questions) :
    q.correct = [] ∨ q.correct = ['A'] ∨ q.correct = ['B'] ∨ q.correct = ['C'] ∨
      q.correct = ['D'] :=
  ((parseLines_SOk lines s hs q hq).1).2.1

theorem C2_witness :
    exC2q.correct = [] ∨ exC2q.correct = ['A'] ∨ exC2q.correct = ['B'] ∨
      exC2q.correct = ['C'] ∨ exC2q.correct = ['D'] :=
  C2_correct_letter exC2 exC2sec exC2q (by decide) (by decide)

/-- C3: the claim demands that an id assigned by a first answer-key line
and absent from a second one keeps its letter; the code replaces the
pending map wholesale, so question 1 ends with an empty `correct`. -/
theorem C3_counterexample :
    (parseLines exC3).map (fun s => s.questions.map fun q => (q.id, q.correct)) =
        [[(1, []), (2, ['B'])]] ∧
    ¬ (∀ s ∈ parseLines exC3, ∀ q ∈ s.questions, q.id = 1 → q.correct = ['A']) := by
  decide

/-- C3 (amended): an answer-key line parses all its `<digits><letter A-D>`
tokens into a fresh pending map that replaces the previous one entirely,
whatever the previous map contained; ids without a token on that line have
no pending entry afterwards. -/
theorem C3_answers_replace (st : ScanState) (nl : Str) (p : Nat)
    (h1 : (nl.isEmpty || isPageNum nl) = false)
    (h2 : ¬(nl = str "TESTOVÉ ÚLOHY" ∨ nl = str "OBČANSKÝ ZÁKLAD"))
    (h3 : sectionHeaderOf nl = none)
    (h4 : isAnswersLine nl = true) :
    stepNormal st nl p = (answersStep st nl, .normal) ∧
    (answersStep st nl).curAnswers = parse_answers_line nl ∧
    ∀ n : Nat, (parse_answers_line nl).all (fun e => !(e.1 == n)) = true →
      lookupAns (parse_answers_line nl) n = none := by
  refine ⟨?_, rfl, fun n hn => lookupAns_eq_none _ n hn⟩
  unfold stepNormal
  rw [if_neg (by simp [h1]), if_neg h2, h3]
  dsimp only
  rw [if_pos h4]

theorem C3_witness :
    stepNormal exSt3 (str "SPRÁVNÉ ŘEŠENÍ: 2B") 1 =
      (answersStep exSt3 (str "SPRÁVNÉ ŘEŠENÍ: 2B"), .normal) ∧
    (answersStep exSt3 (str "SPRÁVNÉ ŘEŠENÍ: 2B")).curAnswers =
      parse_answers_line (str "SPRÁVNÉ ŘEŠENÍ: 2B") ∧
    lookupAns (parse_answers_line (str "SPRÁVNÉ ŘEŠENÍ: 2B")) 1 = none :=
  ⟨(C3_answers_replace exSt3 _ 1 (by decide) (by decide) (by decide) (by decide)).1,
   (C3_answers_replace exSt3 _ 1 (by decide) (by decide) (by decide) (by decide)).2.1,
   (C3_answers_replace exSt3 _ 1 (by decide) (by decide) (by decide) (by decide)).2.2 1
     (by decide)⟩

/-- C4: every question present in any produced section has at least one
option: every commit path appends a question only when its option list is
non-empty. -/
theorem C4_options_nonempty (lines : List (Str × Nat)) (s : Section) (q : Question)
    (hs : s ∈ parseLines lines) (hq : q ∈ s.questions) : q.options ≠ [] :=
  (parseLines_SOk lines s hs q hq).2

theorem C4_witness : exC2q.options ≠ [] :=
  C4_options_nonempty exC2 exC2sec exC2q (by decide) (by decide)

/-- C10: `clean_text` is idempotent, and every question text and option
text stored by the parser has no leading or trailing whitespace and no two
consecutive whitespace characters. -/
theorem C10_clean_text_idem :
    (∀ l : Str, clean_text (clean_text l) = clean_text l) ∧
    (∀ (lines : List (Str × Nat)), ∀ s ∈ parseLines lines, ∀ q ∈ s.questions,
      normText q.text = true ∧ ∀ o ∈ q.options, normText o.text = true) :=
  ⟨clean_text_idem, fun lines s hs q hq =>
    ⟨((parseLines_SOk lines s hs q hq).1).1,
     ((parseLines_SOk lines s hs q hq).1).2.2⟩⟩

theorem C10_witness :
    clean_text (clean_text (str " a   b  c ")) = clean_text (str " a   b  c ") ∧
    normText exC10q.text = true ∧ normText exC10opt.text = true :=
  ⟨C10_clean_text_idem.1 (str " a   b  c "),
   (C10_clean_text_idem.2 exC10 exC10sec (by decide) exC10q (by decide)).1,
   (C10_clean_text_idem.2 exC10 exC10sec (by decide) exC10q (by decide)).2 exC10opt
     (by decide)⟩
/-- Helper: destructure a list of length four. -/
theorem length_eq_four {α : Type _} {l : List α} (h : l.length = 4) :
    ∃ a b c d, l = [a, b, c, d] := by
  cases l with
  | nil => simp at h
  | cons a t1 =>
    cases t1 with
    | nil => simp at h
    | cons b t2 =>
      cases t2 with
      | nil => simp at h
      | cons c t3 =>
        cases t3 with
        | nil => simp at h
        | cons d t4 =>
          cases t4 with
          | nil => exact ⟨a, b, c, d, rfl⟩
          | cons e t5 =>
            simp only [List.length_cons] at h
            omega

/-- Helper: destructure the first four elements of a list. -/
theorem four_le_length {α : Type _} {l : List α} (h : 4 ≤ l.length) :
    ∃ a b c d t, l = a :: b :: c :: d :: t := by
  cases l with
  | nil => simp at h
  | cons a t1 =>
    cases t1 with
    | nil => simp at h
    | cons b t2 =>
      cases t2 with
      | nil => simp at h
      | cons c t3 =>
        cases t3 with
        | nil => simp at h
        | cons d t4 => exact ⟨a, b, c, d, t4, rfl⟩

/-- Helper: in the grid case all guards pass and the option list is
rewritten positionally. -/
theorem gridAssign_eq (dir : Str) (ibp : List (Nat × List ImgInfo)) (sid : Nat)
    (q : Question)
    (hex : (sid, q.id) ∉ EXCLUDE_IMAGE)
    (hshort : q.options.all (fun o => decide (o.text.length < 50)) = true)
    (hfour : q.options.length = 4)
    (himg : 4 ≤ (candidateImages ibp q).length)
    (hment : mentionsImage q = true) :
    assignQuestion dir ibp sid q =
      { q with options :=
          q.options.enum.map fun e =>
            match (candidateImages ibp q)[e.1]? with
            | some im => { e.2 with image := some (mkImagePath dir im.filename) }
            | none => e.2 } := by
  have hne : (candidateImages ibp q).isEmpty = false := by
    obtain ⟨c1, c2, c3, c4, t, hcs⟩ := four_le_length himg
    rw [hcs]
    rfl
  have hcond : (q.options.all (fun o => decide (o.text.length < 50)) &&
      (q.options.length == 4) && decide (4 ≤ (candidateImages ibp q).length) &&
      mentionsImage q) = true := by
    simp [hshort, hfour, himg, hment]
  unfold assignQuestion
  dsimp only
  rw [if_neg hex, if_neg (by simp [hne]), if_pos hcond]

/-- Helper: the per-option image paths produced by the grid case. -/
theorem grid_options_map (dir : Str) (ibp : List (Nat × List ImgInfo)) (sid : Nat)
    (q : Question)
    (hex : (sid, q.id) ∉ EXCLUDE_IMAGE)
    (hshort : q.options.all (fun o => decide (o.text.length < 50)) = true)
    (hfour : q.options.length = 4)
    (himg : 4 ≤ (candidateImages ibp q).length)
    (hment : mentionsImage q = true) :
    (assignQuestion dir ibp sid q).options.map Opt.image =
      ((candidateImages ibp q).take 4).map (fun im => some (mkImagePath dir im.filename)) ∧
    (assignQuestion dir ibp sid q).image = q.image := by
  rw [gridAssign_eq dir ibp sid q hex hshort hfour himg hment]
  refine ⟨?_, rfl⟩
  obtain ⟨o1, o2, o3, o4, hos⟩ := length_eq_four hfour
  obtain ⟨c1, c2, c3, c4, t, hcs⟩ := four_le_length himg
  rw [hos, hcs]
  simp [List.enum, List.enumFrom, List.take]

/-- C5: the claim demands that no image path is ever assigned to two
targets in one binder pass; two non-excluded keyword questions sharing a
page both receive that page's first image. -/
theorem C5_counterexample :
    assignedImages (assign_images_to_questions exC5doc exC5ibp (str "d_images")) =
      [str "d_images/page03_img01.png", str "d_images/page03_img01.png"] ∧
    ¬ (assignedImages
        (assign_images_to_questions exC5doc exC5ibp (str "d_images"))).Pairwise (· ≠ ·) := by
  decide

/-- C5 (amended): within a single question, the grid case assigns pairwise
distinct image paths to the options whenever the first four candidate
filenames are distinct; across questions an image may be assigned to
several targets. -/
theorem C5_per_question_nodup (dir : Str) (ibp : List (Nat × List ImgInfo)) (sid : Nat)
    (q : Question)
    (hex : (sid, q.id) ∉ EXCLUDE_IMAGE)
    (hshort : q.options.all (fun o => decide (o.text.length < 50)) = true)
    (hfour : q.options.length = 4)
    (himg : 4 ≤ (candidateImages ibp q).length)
    (hment : mentionsImage q = true)
    (hnd : (((candidateImages ibp q).take 4).map ImgInfo.filename).Nodup) :
    ((assignQuestion dir ibp sid q).options.map Opt.image).Nodup := by
  rw [(grid_options_map dir ibp sid q hex hshort hfour himg hment).1]
  have hmm : ((candidateImages ibp q).take 4).map
      (fun im => some (mkImagePath dir im.filename)) =
      (((candidateImages ibp q).take 4).map ImgInfo.filename).map
        (fun f => some (mkImagePath dir f)) := by
    rw [List.map_map]
    rfl
  rw [hmm]
  refine List.Nodup.map ?_ hnd
  intro a b hab
  injection hab with hab
  unfold mkImagePath at hab
  have := List.append_cancel_left hab
  injection this

theorem C5_witness :
    ((assignQuestion (str "d_images") exC6ibp 1 exC6q).options.map Opt.image).Nodup :=
  C5_per_question_nodup (str "d_images") exC6ibp 1 exC6q (by decide) (by decide)
    (by decide) (by decide) (by decide) (by decide)

/-- C6: a non-excluded question with exactly four options, all texts under
50 characters, at least four candidate images and an image keyword gets
the first four candidate images assigned positionally to its options, and
no image on the question itself. -/
theorem C6_grid_case (dir : Str) (ibp : List (Nat × List ImgInfo)) (sid : Nat)
    (q : Question)
    (hex : (sid, q.id) ∉ EXCLUDE_IMAGE)
    (hshort : q.options.all (fun o => decide (o.text.length < 50)) = true)
    (hfour : q.options.length = 4)
    (himg : 4 ≤ (candidateImages ibp q).length)
    (hment : mentionsImage q = true) :
    (assignQuestion dir ibp sid q).options.map Opt.image =
      ((candidateImages ibp q).take 4).map (fun im => some (mkImagePath dir im.filename)) ∧
    (assignQuestion dir ibp sid q).image = q.image :=
  grid_options_map dir ibp sid q hex hshort hfour himg hment

theorem C6_witness :
    (assignQuestion (str "d_images") exC6ibp 1 exC6q).options.map Opt.image =
      ((candidateImages exC6ibp exC6q).take 4).map
        (fun im => some (mkImagePath (str "d_images") im.filename)) ∧
    (assignQuestion (str "d_images") exC6ibp 1 exC6q).image = exC6q.image :=
  C6_grid_case (str "d_images") exC6ibp 1 exC6q (by decide) (by decide) (by decide)
    (by decide) (by decide)

/-- C7: a question whose (section id, question id) pair is excluded is
returned unchanged: no image on the question or any option, whatever the
keywords and candidate images. -/
theorem C7_exclusion (dir : Str) (ibp : List (Nat × List ImgInfo)) (sid : Nat)
    (q : Question) (hex : (sid, q.id) ∈ EXCLUDE_IMAGE) :
    assignQuestion dir ibp sid q = q := by
  unfold assignQuestion
  rw [if_pos hex]

theorem C7_witness : assignQuestion (str "d_images") exC7ibp 17 exC7q = exC7q :=
  C7_exclusion (str "d_images") exC7ibp 17 exC7q (by decide)

/-- C8: the serializer is a pure function of the document; every question
object carries the keys id, text, options, correct unconditionally and
image / date exactly when the field is non-empty, and every option object
carries label, text unconditionally and image exactly when non-empty. -/
theorem C8_serializer_keys :
    (∀ qd : QuizData, convert_to_dict qd =
        .jobj [(str "source_file", .jstr qd.source_file),
               (str "sections", .jarr (qd.sections.map fun s => .jobj (sectionToDict s)))]) ∧
    (∀ q : Question, objKeys (questionToDict q) =
        [str "id", str "text", str "options", str "correct"]
          ++ (if pyTruthy q.image then [str "image"] else [])
          ++ (if pyTruthy q.date then [str "date"] else [])) ∧
    (∀ o : Opt, objKeys (optionToDict o) =
        [str "label", str "text"] ++ (if pyTruthy o.image then [str "image"] else [])) := by
  refine ⟨fun qd => rfl, fun q => ?_, fun o => ?_⟩
  · unfold questionToDict objKeys
    by_cases hi : pyTruthy q.image = true <;> by_cases hd : pyTruthy q.date = true <;>
      simp [hi, hd]
  · unfold optionToDict objKeys
    by_cases hi : pyTruthy o.image = true <;> simp [hi]

/-- C9: the validator's final status is non-zero exactly when some
referenced image is missing on disk; with nothing missing it succeeds, and
warns exactly when more than five orphaned files remain. -/
theorem C9_validator_status (dirImgs jsonImgs : List Str) :
    ((validatorStatus dirImgs jsonImgs).1 ≠ 0 ↔ missingOf dirImgs jsonImgs ≠ []) ∧
    (missingOf dirImgs jsonImgs = [] →
      (validatorStatus dirImgs jsonImgs).1 = 0 ∧
      ((validatorStatus dirImgs jsonImgs).2 = true ↔
        5 < (orphanedOf dirImgs jsonImgs).length)) := by
  unfold validatorStatus
  cases hml : missingOf dirImgs jsonImgs with
  | cons a t =>
    refine ⟨?_, ?_⟩
    · simp [hml]
    · intro h
      cases h
  | nil =>
    by_cases ho : (orphanedOf dirImgs jsonImgs).length > 5
    · refine ⟨by simp [hml, ho], fun _ => ⟨by simp [hml, ho], ?_⟩⟩
      simp [hml, ho]
    · refine ⟨by simp [hml, ho], fun _ => ⟨by simp [hml, ho], ?_⟩⟩
      simp [hml, ho]

theorem C9_witness :
    ((validatorStatus exDirs exJsons).1 ≠ 0 ↔ missingOf exDirs exJsons ≠ []) ∧
    ((validatorStatus exDirs exJsons).1 = 0 ∧
      ((validatorStatus exDirs exJsons).2 = true ↔
        5 < (orphanedOf exDirs exJsons).length)) :=
  ⟨(C9_validator_status exDirs exJsons).1,
   (C9_validator_status exDirs exJsons).2 (by decide)⟩

end CCE
